import Mathlib

/-!
Verification of the crazerace instrumented RPC client subsystem.

Shallow embedding of `crazerace/http/rpc.py`, `crazerace/jwt/__init__.py` and
the parts of `crazerace/http/instrumentation.py` / `crazerace/http/error.py`
the RPC dispatcher depends on.  Python values that can appear as an RPC body
are modelled by `JsonValue`; Python `dict` header maps are modelled as
association lists with dict update semantics; the behaviour of the pinned
third-party libraries (`requests==2.31.0`, `PyJWT==1.7.1`) is modelled at the
interface points the repository code uses.
-/

namespace Crazerace

/-! ## JSON values (Python objects usable as RPC bodies) -/

/-- A Python value that can be passed as an RPC `body` and serialized by
`json.dumps`: strings, integers, booleans, `None`, lists and dicts. -/
inductive JsonValue where
  | str (s : String)
  | num (n : Int)
  | bool (b : Bool)
  | null
  | arr (l : List JsonValue)
  | obj (l : List (String × JsonValue))

/-- Python truthiness (`bool(x)`) of a `JsonValue`: empty string, zero, `False`,
`None`, empty list and empty dict are falsy. -/
def JsonValue.isTruthy : JsonValue → Bool
  | .str s => s != ""
  | .num n => n != 0
  | .bool b => b
  | .null => false
  | .arr l => !l.isEmpty
  | .obj l => !l.isEmpty

/-- Python truthiness of an `Optional` body: `None` is falsy. -/
def pyTruthy : Option JsonValue → Bool
  | none => false
  | some v => v.isTruthy

/-- Is the value a Python `str` (`isinstance(body, str)`)? -/
def JsonValue.isStr : JsonValue → Bool
  | .str _ => true
  | _ => false

/-- Hex digits of a nibble, as emitted by `json.dumps` in `\uXXXX` escapes. -/
def hexDigitChar (n : Nat) : Char :=
  if n < 10 then Char.ofNat (48 + n) else Char.ofNat (87 + n)

/-- `json.dumps` escaping of a single string character. -/
def escapeChar (c : Char) : List Char :=
  if c = '"' then ['\\', '"']
  else if c = '\\' then ['\\', '\\']
  else if c = '\n' then ['\\', 'n']
  else if c = '\t' then ['\\', 't']
  else if c = '\r' then ['\\', 'r']
  else if c.toNat < 32 then
    ['\\', 'u', '0', '0', hexDigitChar (c.toNat / 16), hexDigitChar (c.toNat % 16)]
  else [c]

/-- `json.dumps` serialization of a string, quotes included. -/
def dumpString (s : String) : String :=
  ⟨'"' :: (s.data.flatMap escapeChar) ++ ['"']⟩

mutual

/-- `json.dumps(v, separators=...)` for the default `requests` JSON encoding of
a request body. -/
def dumps : JsonValue → String
  | .str s => dumpString s
  | .num n => toString n
  | .bool b => if b then "true" else "false"
  | .null => "null"
  | .arr l => "[" ++ dumpsList l ++ "]"
  | .obj l => "\x7b" ++ dumpsObj l ++ "\x7d"

/-- Comma-separated serialization of a JSON array's elements. -/
def dumpsList : List JsonValue → String
  | [] => ""
  | [v] => dumps v
  | v :: rest => dumps v ++ ", " ++ dumpsList rest

/-- Comma-separated serialization of a JSON object's entries. -/
def dumpsObj : List (String × JsonValue) → String
  | [] => ""
  | [(k, v)] => dumpString k ++ ": " ++ dumps v
  | (k, v) :: rest => dumpString k ++ ": " ++ dumps v ++ ", " ++ dumpsObj rest

end

/-! ## Header dictionaries

Python `Dict[str, str]` modelled as an association list in insertion order:
`setH` is `d[k] = v` (replace in place if the key exists, else append),
`getH` is `d.get(k)`. -/

/-- Dict update `d[k] = v`. -/
def setH (k v : String) (hs : List (String × String)) : List (String × String) :=
  if hs.any (fun p => p.1 = k) then
    hs.map (fun p => if p.1 = k then (k, v) else p)
  else hs ++ [(k, v)]

/-- Dict lookup `d.get(k)`. -/
def getH (k : String) (hs : List (String × String)) : Option String :=
  (hs.find? (fun p => p.1 = k)).map (fun p => p.2)

theorem getH_nil (k : String) : getH k [] = none := rfl

theorem getH_cons_self (k v : String) (t : List (String × String)) :
    getH k ((k, v) :: t) = some v := by
  simp [getH]

theorem getH_cons_ne (k : String) (p : String × String) (t : List (String × String))
    (hp : p.1 ≠ k) : getH k (p :: t) = getH k t := by
  simp [getH, List.find?_cons_of_neg, hp]

theorem setH_cons_ne (k v : String) (p : String × String) (t : List (String × String))
    (hp : p.1 ≠ k) : setH k v (p :: t) = p :: setH k v t := by
  unfold setH
  by_cases h : t.any (fun q => q.1 = k)
  · simp [List.any_cons, hp, h, if_neg hp]
  · simp [List.any_cons, hp, h, if_neg hp]

theorem getH_replaceKey_ne (k k' v : String) (t : List (String × String)) (hne : k ≠ k') :
    getH k (t.map (fun p => if p.1 = k' then (k', v) else p)) = getH k t := by
  induction t with
  | nil => rfl
  | cons q t ih =>
    by_cases hq : q.1 = k'
    · have hq2 : k' ≠ k := fun h => hne h.symm
      have hqk : q.1 ≠ k := by rw [hq]; exact hq2
      rw [List.map_cons, if_pos hq, getH_cons_ne k (k', v) _ hq2, getH_cons_ne k q t hqk, ih]
    · rw [List.map_cons, if_neg hq]
      by_cases hqk : q.1 = k
      · obtain ⟨q1, q2⟩ := q
        simp only at hqk
        subst hqk
        rw [getH_cons_self, getH_cons_self]
      · rw [getH_cons_ne k q _ hqk, getH_cons_ne k q t hqk, ih]

theorem getH_setH_self (k v : String) (hs : List (String × String)) :
    getH k (setH k v hs) = some v := by
  induction hs with
  | nil => simp [setH, getH]
  | cons p t ih =>
    by_cases hp : p.1 = k
    · unfold setH
      have hany : ((p :: t).any fun q => q.1 = k) = true := by
        simp [List.any_cons, hp]
      rw [if_pos hany, List.map_cons, if_pos hp, getH_cons_self]
    · rw [setH_cons_ne k v p t hp, getH_cons_ne k p _ hp]
      exact ih

theorem getH_setH_ne (k k' v : String) (hs : List (String × String)) (hne : k ≠ k') :
    getH k (setH k' v hs) = getH k hs := by
  induction hs with
  | nil =>
    have hset : setH k' v [] = [(k', v)] := by simp [setH]
    rw [hset, getH_cons_ne k (k', v) [] (fun h => hne h.symm)]
  | cons p t ih =>
    by_cases hp : p.1 = k'
    · unfold setH
      have hany : ((p :: t).any fun q => q.1 = k') = true := by
        simp [List.any_cons, hp]
      have hq2 : k' ≠ k := fun h => hne h.symm
      have hqk : p.1 ≠ k := by rw [hp]; exact hq2
      rw [if_pos hany, List.map_cons, if_pos hp, getH_cons_ne k (k', v) _ hq2,
        getH_cons_ne k p t hqk]
      exact getH_replaceKey_ne k k' v t hne
    · rw [setH_cons_ne k' v p t hp]
      by_cases hqk : p.1 = k
      · obtain ⟨q1, q2⟩ := p
        simp only at hqk
        subst hqk
        rw [getH_cons_self, getH_cons_self]
      · rw [getH_cons_ne k p _ hqk, getH_cons_ne k p t hqk, ih]

/-! ## Content-type inference and header construction (`rpc.py`) -/

/-- `_create_content_type`: `text/plain` for `str` bodies, `application/json`
otherwise. -/
def create_content_type (body : Option JsonValue) : String :=
  match body with
  | some v => if v.isStr then "text/plain; charset=utf-8" else "application/json; charset=utf-8"
  | none => "application/json; charset=utf-8"

/-- Python `str.lower()` for the ASCII strings (header names, method names)
the dispatcher lowercases. -/
def lowerStr (s : String) : String := ⟨s.data.map Char.toLower⟩

/-- `_should_add_content_type`: no case-insensitive `content-type` key present
and the body is not `None`. -/
def should_add_content_type (headers : List (String × String)) (body : Option JsonValue) : Bool :=
  !(headers.any (fun p => lowerStr p.1 = "content-type")) && body.isSome

/-- The `Authorization` header value built from a freshly minted JWT.  The
token string itself comes from `jwt.encode` (PyJWT); its exact text is opaque
to the dispatcher, which only interpolates it after `Bearer `. -/
def auth_header_value (user_id role : String) : String :=
  "Bearer " ++ "<jwt sub=" ++ user_id ++ " role=" ++ role ++ ">"

/-- `_create_headers`: copy caller headers, set `X-Request-ID`, set
`Authorization` when a (truthy) user id is supplied, and add an inferred
`Content-Type` when allowed. -/
def create_headers (user_id : Option String) (role : String) (body : Option JsonValue)
    (headers : List (String × String)) (request_id : String) : List (String × String) :=
  let request_headers := setH "X-Request-ID" request_id headers
  let request_headers :=
    match user_id with
    | some uid => if uid ≠ "" then setH "Authorization" (auth_header_value uid role) request_headers
                  else request_headers
    | none => request_headers
  if should_add_content_type request_headers body then
    setH "Content-Type" (create_content_type body) request_headers
  else request_headers

/-! ## Body transmission (`_perform_request`)

`requests.request(..., json=body)` serializes `body` with `json.dumps` and
sends the result as the payload; when the `json` keyword is omitted no payload
is sent.  `_perform_request` omits it for `get`/`delete` and for falsy bodies. -/

/-- The payload handed to the transport, if any: `None` unless the method is
neither `get` nor `delete` and the body is truthy, in which case the
JSON-serialized body. -/
def sentPayload (method : String) (body : Option JsonValue) : Option String :=
  if (lowerStr method = "get" || lowerStr method = "delete") || !pyTruthy body then none
  else body.map dumps

/-! ## Endpoint sanitizer (`_sanitize_endpoint`)

```python
endpoint_without_query = url.split("?")[0]
endpoint_without_uuid = re.sub(
    r"[0-9a-f]{8}-[0-9a-f]{4}-[0-9a-f]{4}-[0-9a-f]{4}-[0-9a-f]{12}",
    "<id>", endpoint_without_query)
endpoint_without_int_params = re.sub(r"\/[0-9]+", "/<id>", endpoint_without_uuid)
```

`re.sub` scans left to right, replacing leftmost non-overlapping matches and
resuming after each match; replacement text is never rescanned.  The UUID
pattern is fixed-width (36 characters) and lowercase-only (no `re.IGNORECASE`).
The numeric pattern greedily consumes one `/` and a maximal digit run.  Both
substitutions are embedded as fuel-indexed scanners over `List Char`; one unit
of fuel is spent per scan position, so fuel equal to the input length is
always enough. -/

/-- The regex character class `[0-9a-f]`. -/
def isHex (c : Char) : Bool := ('0' ≤ c && c ≤ '9') || ('a' ≤ c && c ≤ 'f')

/-- The regex character class `[0-9]`. -/
def isDigitC (c : Char) : Bool := '0' ≤ c && c ≤ '9'

/-- A character that can occur inside a UUID match: lowercase hex or dash. -/
def hexDash (c : Char) : Bool := isHex c || c = '-'

/-- The 36 slots of the UUID pattern, in order: 8 hex digits, dash, 4 hex,
dash, 4 hex, dash, 4 hex, dash, 12 hex (`true` = hex digit slot, `false` =
dash slot). -/
def uuidSlots : List Bool :=
  [true, true, true, true, true, true, true, true, false,
   true, true, true, true, false,
   true, true, true, true, false,
   true, true, true, true, false,
   true, true, true, true, true, true, true, true, true, true, true, true]

/-- Match a slot list against the front of the input, returning the remainder
on success. -/
def matchSlots : List Bool → List Char → Option (List Char)
  | [], cs => some cs
  | _ :: _, [] => none
  | b :: bs, c :: cs => if (if b then isHex c else c = '-') then matchSlots bs cs else none

/-- Match the full 36-character UUID pattern at the front of the input. -/
def matchUuid (cs : List Char) : Option (List Char) := matchSlots uuidSlots cs

/-- The replacement token `<id>` as characters. -/
def idTok : List Char := ['<', 'i', 'd', '>']

/-- One `re.sub` pass for the UUID pattern, with explicit fuel. -/
def uuidSubF : Nat → List Char → List Char
  | 0, l => l
  | _ + 1, [] => []
  | f + 1, c :: cs =>
    match matchUuid (c :: cs) with
    | some rest => idTok ++ uuidSubF f rest
    | none => c :: uuidSubF f cs

/-- `re.sub(r"[0-9a-f]{8}-[0-9a-f]{4}-[0-9a-f]{4}-[0-9a-f]{4}-[0-9a-f]{12}", "<id>", l)`. -/
def uuidSub (l : List Char) : List Char := uuidSubF l.length l

/-- Does the input start with a decimal digit? -/
def digitStart : List Char → Bool
  | [] => false
  | c :: _ => isDigitC c

/-- One `re.sub` pass for `\/[0-9]+`, with explicit fuel: at a `/` followed by
a digit, the match consumes the slash and the maximal digit run and emits
`/<id>`. -/
def intSubF : Nat → List Char → List Char
  | 0, l => l
  | _ + 1, [] => []
  | f + 1, c :: cs =>
    if c = '/' && digitStart cs then '/' :: idTok ++ intSubF f (cs.dropWhile isDigitC)
    else c :: intSubF f cs

/-- `re.sub(r"\/[0-9]+", "/<id>", l)`. -/
def intSub (l : List Char) : List Char := intSubF l.length l

/-- `url.split("?")[0]`. -/
def takeQuery (l : List Char) : List Char := l.takeWhile (fun c => c ≠ '?')

/-- `_sanitize_endpoint` on character lists. -/
def sanitizeList (l : List Char) : List Char := intSub (uuidSub (takeQuery l))

/-- `_sanitize_endpoint`. -/
def sanitize (url : String) : String := ⟨sanitizeList url.data⟩

theorem matchSlots_length {bs : List Bool} {l r : List Char}
    (h : matchSlots bs l = some r) : r.length + bs.length = l.length := by
  induction bs generalizing l with
  | nil =>
    simp only [matchSlots, Option.some.injEq] at h
    simp [← h]
  | cons b bs ih =>
    cases l with
    | nil => simp [matchSlots] at h
    | cons c cs =>
      simp only [matchSlots] at h
      by_cases hc : (if b then isHex c else c = '-') = true
      · rw [if_pos hc] at h
        have := ih h
        simp only [List.length_cons]
        omega
      · rw [if_neg hc] at h
        exact absurd h (by simp)

theorem matchSlots_drop {bs : List Bool} {l r : List Char}
    (h : matchSlots bs l = some r) : r = l.drop bs.length := by
  induction bs generalizing l with
  | nil => simpa [matchSlots] using h.symm
  | cons b bs ih =>
    cases l with
    | nil => simp [matchSlots] at h
    | cons c cs =>
      simp only [matchSlots] at h
      by_cases hc : (if b then isHex c else c = '-') = true
      · rw [if_pos hc] at h
        simpa using ih h
      · rw [if_neg hc] at h
        exact absurd h (by simp)

theorem matchSlots_take_hexDash {bs : List Bool} {l r : List Char}
    (h : matchSlots bs l = some r) : (l.take bs.length).all hexDash = true := by
  induction bs generalizing l with
  | nil => simp
  | cons b bs ih =>
    cases l with
    | nil => simp [matchSlots] at h
    | cons c cs =>
      simp only [matchSlots] at h
      by_cases hc : (if b then isHex c else c = '-') = true
      · rw [if_pos hc] at h
        have hcd : hexDash c = true := by
          cases b with
          | true => simp at hc; simp [hexDash, hc]
          | false => simp at hc; simp [hexDash, hc]
        simpa [List.all_cons, hcd] using ih h
      · rw [if_neg hc] at h
        exact absurd h (by simp)

theorem matchSlots_isSome_congr (bs : List Bool) (l l' : List Char)
    (h : l.take bs.length = l'.take bs.length) :
    (matchSlots bs l).isSome = (matchSlots bs l').isSome := by
  induction bs generalizing l l' with
  | nil => simp [matchSlots]
  | cons b bs ih =>
    cases l with
    | nil =>
      cases l' with
      | nil => rfl
      | cons c' cs' => simp at h
    | cons c cs =>
      cases l' with
      | nil => simp at h
      | cons c' cs' =>
        simp only [List.length_cons, List.take_succ_cons, List.cons.injEq] at h
        obtain ⟨hc, hcs⟩ := h
        subst hc
        simp only [matchSlots]
        by_cases hcond : (if b then isHex c else c = '-') = true
        · rw [if_pos hcond, if_pos hcond]
          exact ih cs cs' hcs
        · rw [if_neg hcond, if_neg hcond]

theorem matchSlots_none_short {bs : List Bool} {l : List Char}
    (h : l.length < bs.length) : matchSlots bs l = none := by
  cases hm : matchSlots bs l with
  | none => rfl
  | some r =>
    have := matchSlots_length hm
    omega

theorem uuidSlots_length : uuidSlots.length = 36 := by decide

theorem matchUuid_length {l r : List Char} (h : matchUuid l = some r) :
    r.length + 36 = l.length := by
  have := matchSlots_length h
  rwa [uuidSlots_length] at this

/-- Fuel irrelevance for the UUID pass: any fuel at least the input length
gives the same result. -/
theorem uuidSubF_congr : ∀ f g l, l.length ≤ f → l.length ≤ g → uuidSubF f l = uuidSubF g l := by
  intro f
  induction f with
  | zero =>
    intro g l hf _
    have : l = [] := by
      cases l with
      | nil => rfl
      | cons c cs => simp at hf
    subst this
    cases g <;> rfl
  | succ f ih =>
    intro g l hf hg
    cases l with
    | nil => cases g <;> rfl
    | cons c cs =>
      cases g with
      | zero => simp at hg
      | succ g =>
        simp only [uuidSubF]
        cases hm : matchUuid (c :: cs) with
        | some rest =>
          dsimp only
          have hlen := matchUuid_length hm
          simp only [List.length_cons] at hf hg hlen
          rw [ih g rest (by omega) (by omega)]
        | none =>
          dsimp only
          simp only [List.length_cons] at hf hg
          rw [ih g cs (by omega) (by omega)]

theorem uuidSub_nil : uuidSub [] = [] := rfl

theorem uuidSub_cons (c : Char) (cs : List Char) :
    uuidSub (c :: cs) =
      match matchUuid (c :: cs) with
      | some rest => idTok ++ uuidSub rest
      | none => c :: uuidSub cs := by
  show uuidSubF (cs.length + 1) (c :: cs) = _
  simp only [uuidSubF]
  cases hm : matchUuid (c :: cs) with
  | some rest =>
    dsimp only
    have hlen := matchUuid_length hm
    simp only [List.length_cons] at hlen
    rw [uuidSubF_congr cs.length rest.length rest (by omega) (le_refl _)]
    rfl
  | none => rfl

theorem dropWhile_length_le (p : Char → Bool) (l : List Char) :
    (l.dropWhile p).length ≤ l.length := by
  induction l with
  | nil => simp
  | cons c cs ih =>
    by_cases h : p c
    · rw [List.dropWhile_cons, if_pos h]
      simp only [List.length_cons]
      omega
    · rw [List.dropWhile_cons, if_neg h]

/-- Fuel irrelevance for the numeric pass. -/
theorem intSubF_congr : ∀ f g l, l.length ≤ f → l.length ≤ g → intSubF f l = intSubF g l := by
  intro f
  induction f with
  | zero =>
    intro g l hf _
    have : l = [] := by
      cases l with
      | nil => rfl
      | cons c cs => simp at hf
    subst this
    cases g <;> rfl
  | succ f ih =>
    intro g l hf hg
    cases l with
    | nil => cases g <;> rfl
    | cons c cs =>
      cases g with
      | zero => simp at hg
      | succ g =>
        simp only [intSubF]
        simp only [List.length_cons] at hf hg
        by_cases hc : (c = '/' && digitStart cs) = true
        · rw [if_pos hc, if_pos hc]
          have hd := dropWhile_length_le isDigitC cs
          rw [ih g (cs.dropWhile isDigitC) (by omega) (by omega)]
        · rw [if_neg hc, if_neg hc]
          rw [ih g cs (by omega) (by omega)]

theorem intSub_nil : intSub [] = [] := rfl

theorem intSub_cons (c : Char) (cs : List Char) :
    intSub (c :: cs) =
      if c = '/' && digitStart cs then '/' :: idTok ++ intSub (cs.dropWhile isDigitC)
      else c :: intSub cs := by
  show intSubF (cs.length + 1) (c :: cs) = _
  simp only [intSubF]
  by_cases hc : (c = '/' && digitStart cs) = true
  · rw [if_pos hc, if_pos hc]
    have hd := dropWhile_length_le isDigitC cs
    rw [intSubF_congr cs.length (cs.dropWhile isDigitC).length (cs.dropWhile isDigitC)
      (by omega) (le_refl _)]
    rfl
  · rw [if_neg hc, if_neg hc]
    rfl

/-! ### Fixed points of the substitution passes

`uuidFree l` says no position of `l` starts a UUID match; `sdFree l` says no
`/` in `l` is immediately followed by a digit; `noQ l` says `l` has no `?`.
Each pass's output satisfies the corresponding predicate, each predicate makes
the corresponding pass the identity, and each pass preserves the others'
predicates — which is what makes `_sanitize_endpoint` idempotent. -/

/-- No suffix of the list starts a UUID match. -/
def uuidFree : List Char → Bool
  | [] => true
  | l@(_ :: cs) => (matchUuid l).isNone && uuidFree cs

/-- The pair `a, b` of adjacent characters is not a `/` followed by a digit. -/
def okPair (a b : Char) : Bool := !(a = '/' && isDigitC b)

/-- No `/` in the list is immediately followed by a digit. -/
def sdFree : List Char → Bool
  | a :: b :: cs => okPair a b && sdFree (b :: cs)
  | _ => true

/-- No `?` occurs in the list. -/
def noQ (l : List Char) : Bool := l.all (fun c => c != '?')

theorem matchUuid_none_head {c : Char} (xs : List Char) (h : isHex c = false) :
    matchUuid (c :: xs) = none := by
  simp [matchUuid, uuidSlots, matchSlots, h]

theorem matchUuid_none_second (c : Char) {d : Char} (xs : List Char) (h : isHex d = false) :
    matchUuid (c :: d :: xs) = none := by
  by_cases hc : isHex c = true
  · simp [matchUuid, uuidSlots, matchSlots, hc, h]
  · have hc2 : isHex c = false := by simpa using hc
    simp [matchUuid, uuidSlots, matchSlots, hc2]

theorem mem_of_mem_dropWhile {p : Char → Bool} {l : List Char} {x : Char}
    (h : x ∈ l.dropWhile p) : x ∈ l := by
  induction l with
  | nil => simp at h
  | cons c cs ih =>
    rw [List.dropWhile_cons] at h
    by_cases hc : p c
    · rw [if_pos hc] at h
      exact List.mem_cons_of_mem c (ih h)
    · rwa [if_neg hc] at h

theorem noQ_mono {l m : List Char} (hsub : ∀ x, x ∈ m → x ∈ l) (h : noQ l = true) :
    noQ m = true := by
  simp only [noQ, List.all_eq_true] at h ⊢
  exact fun x hx => h x (hsub x hx)

theorem noQ_takeQuery (l : List Char) : noQ (takeQuery l) = true := by
  induction l with
  | nil => rfl
  | cons c cs ih =>
    unfold takeQuery at ih ⊢
    rw [List.takeWhile_cons]
    by_cases hc : c = '?'
    · subst hc
      rw [if_neg (by simp)]
      rfl
    · rw [if_pos (by simp [hc])]
      simpa [noQ, hc] using ih

theorem takeQuery_eq_self {l : List Char} (h : noQ l = true) : takeQuery l = l := by
  induction l with
  | nil => rfl
  | cons c cs ih =>
    simp only [noQ, List.all_cons, Bool.and_eq_true, bne_iff_ne] at h
    unfold takeQuery
    rw [List.takeWhile_cons, if_pos (by simpa using h.1)]
    exact congrArg (c :: ·) (ih (by simp [noQ, h.2]))

theorem noQ_uuidSubF : ∀ f l, l.length ≤ f → noQ l = true → noQ (uuidSubF f l) = true := by
  intro f
  induction f with
  | zero =>
    intro l hf h
    cases l with
    | nil => exact h
    | cons c cs => simp at hf
  | succ f ih =>
    intro l hf h
    cases l with
    | nil => exact h
    | cons c cs =>
      simp only [uuidSubF]
      cases hm : matchUuid (c :: cs) with
      | some rest =>
        dsimp only
        have hlen := matchUuid_length hm
        simp only [List.length_cons] at hf hlen
        have hrest : noQ rest = true := by
          have hdrop := matchSlots_drop hm
          rw [uuidSlots_length] at hdrop
          exact noQ_mono (fun x hx => List.drop_subset _ _ (hdrop ▸ hx)) h
        have := ih rest (by omega) hrest
        simpa [noQ, idTok] using this
      | none =>
        dsimp only
        simp only [List.length_cons] at hf
        simp only [noQ, List.all_cons, Bool.and_eq_true] at h ⊢
        exact ⟨h.1, ih cs (by omega) h.2⟩

theorem noQ_intSubF : ∀ f l, l.length ≤ f → noQ l = true → noQ (intSubF f l) = true := by
  intro f
  induction f with
  | zero =>
    intro l hf h
    cases l with
    | nil => exact h
    | cons c cs => simp at hf
  | succ f ih =>
    intro l hf h
    cases l with
    | nil => exact h
    | cons c cs =>
      simp only [intSubF]
      simp only [List.length_cons] at hf
      simp only [noQ, List.all_cons, Bool.and_eq_true] at h
      by_cases hc : (c = '/' && digitStart cs) = true
      · rw [if_pos hc]
        have hrest : noQ (cs.dropWhile isDigitC) = true :=
          noQ_mono (fun x hx => mem_of_mem_dropWhile hx) h.2
        have hd := dropWhile_length_le isDigitC cs
        have := ih (cs.dropWhile isDigitC) (by omega) hrest
        simpa [noQ, idTok] using this
      · rw [if_neg hc]
        simp only [noQ, List.all_cons, Bool.and_eq_true]
        exact ⟨h.1, ih cs (by omega) h.2⟩

theorem uuidSubF_take_eq : ∀ f l k, l.length ≤ f →
    ((uuidSubF f l).take k).all hexDash = true → (uuidSubF f l).take k = l.take k := by
  intro f
  induction f with
  | zero =>
    intro l k hf _
    cases l with
    | nil => rfl
    | cons c cs => simp at hf
  | succ f ih =>
    intro l k hf hall
    cases l with
    | nil => rfl
    | cons c cs =>
      simp only [uuidSubF] at hall ⊢
      cases hm : matchUuid (c :: cs) with
      | some rest =>
        rw [hm] at hall
        dsimp only at hall ⊢
        cases k with
        | zero => rfl
        | succ k =>
          exfalso
          have : hexDash '<' = false := by decide
          simp [idTok, List.take_succ_cons, List.all_cons, this] at hall
      | none =>
        rw [hm] at hall
        dsimp only at hall ⊢
        cases k with
        | zero => rfl
        | succ k =>
          simp only [List.take_succ_cons, List.all_cons, Bool.and_eq_true] at hall ⊢
          simp only [List.length_cons] at hf
          rw [ih cs k (by omega) hall.2]

theorem intSubF_take_eq : ∀ f l k, l.length ≤ f →
    ((intSubF f l).take k).all hexDash = true → (intSubF f l).take k = l.take k := by
  intro f
  induction f with
  | zero =>
    intro l k hf _
    cases l with
    | nil => rfl
    | cons c cs => simp at hf
  | succ f ih =>
    intro l k hf hall
    cases l with
    | nil => rfl
    | cons c cs =>
      simp only [intSubF] at hall ⊢
      simp only [List.length_cons] at hf
      by_cases hc : (c = '/' && digitStart cs) = true
      · rw [if_pos hc] at hall ⊢
        cases k with
        | zero => rfl
        | succ k =>
          exfalso
          have : hexDash '/' = false := by decide
          simp [idTok, List.take_succ_cons, List.all_cons, this] at hall
      · rw [if_neg hc] at hall ⊢
        cases k with
        | zero => rfl
        | succ k =>
          simp only [List.take_succ_cons, List.all_cons, Bool.and_eq_true] at hall ⊢
          rw [ih cs k (by omega) hall.2]

theorem matchUuid_none_of_take {c : Char} {cs X : List Char}
    (hcond : (X.take 35).all hexDash = true → X.take 35 = cs.take 35)
    (hm : matchUuid (c :: cs) = none) :
    matchUuid (c :: X) = none := by
  cases hm2 : matchUuid (c :: X) with
  | none => rfl
  | some r =>
    exfalso
    have hall36 := matchSlots_take_hexDash hm2
    rw [uuidSlots_length] at hall36
    rw [show (36 : Nat) = 35 + 1 from rfl, List.take_succ_cons, List.all_cons,
      Bool.and_eq_true] at hall36
    have hX := hcond hall36.2
    have htake : (c :: X).take uuidSlots.length = (c :: cs).take uuidSlots.length := by
      rw [uuidSlots_length]
      rw [show (36 : Nat) = 35 + 1 from rfl, List.take_succ_cons, List.take_succ_cons, hX]
    have hcongr := matchSlots_isSome_congr uuidSlots (c :: X) (c :: cs) htake
    rw [show matchSlots uuidSlots (c :: X) = matchUuid (c :: X) from rfl,
      show matchSlots uuidSlots (c :: cs) = matchUuid (c :: cs) from rfl, hm2, hm] at hcongr
    simp at hcongr

theorem uuidFree_uuidSubF : ∀ f l, l.length ≤ f → uuidFree (uuidSubF f l) = true := by
  intro f
  induction f with
  | zero =>
    intro l hf
    cases l with
    | nil => rfl
    | cons c cs => simp at hf
  | succ f ih =>
    intro l hf
    cases l with
    | nil => rfl
    | cons c cs =>
      simp only [uuidSubF]
      cases hm : matchUuid (c :: cs) with
      | some rest =>
        dsimp only
        have hlen := matchUuid_length hm
        simp only [List.length_cons] at hf hlen
        have htail := ih rest (by omega)
        simp only [idTok, List.cons_append, List.nil_append]
        show (uuidFree ('<' :: 'i' :: 'd' :: '>' :: uuidSubF f rest)) = true
        rw [show uuidFree ('<' :: 'i' :: 'd' :: '>' :: uuidSubF f rest) =
          ((matchUuid ('<' :: 'i' :: 'd' :: '>' :: uuidSubF f rest)).isNone &&
            uuidFree ('i' :: 'd' :: '>' :: uuidSubF f rest)) from rfl]
        rw [show uuidFree ('i' :: 'd' :: '>' :: uuidSubF f rest) =
          ((matchUuid ('i' :: 'd' :: '>' :: uuidSubF f rest)).isNone &&
            uuidFree ('d' :: '>' :: uuidSubF f rest)) from rfl]
        rw [show uuidFree ('d' :: '>' :: uuidSubF f rest) =
          ((matchUuid ('d' :: '>' :: uuidSubF f rest)).isNone &&
            uuidFree ('>' :: uuidSubF f rest)) from rfl]
        rw [show uuidFree ('>' :: uuidSubF f rest) =
          ((matchUuid ('>' :: uuidSubF f rest)).isNone && uuidFree (uuidSubF f rest)) from rfl]
        rw [matchUuid_none_head _ (by decide), matchUuid_none_head _ (by decide),
          matchUuid_none_second _ _ (by decide), matchUuid_none_head _ (by decide), htail]
        rfl
      | none =>
        dsimp only
        simp only [List.length_cons] at hf
        have htail := ih cs (by omega)
        have hnone : matchUuid (c :: uuidSubF f cs) = none :=
          matchUuid_none_of_take (fun hall => uuidSubF_take_eq f cs 35 (by omega) hall) hm
        rw [show uuidFree (c :: uuidSubF f cs) =
          ((matchUuid (c :: uuidSubF f cs)).isNone && uuidFree (uuidSubF f cs)) from rfl]
        rw [hnone, htail]
        rfl

theorem uuidFree_tail {c : Char} {cs : List Char} (h : uuidFree (c :: cs) = true) :
    uuidFree cs = true := by
  rw [show uuidFree (c :: cs) = ((matchUuid (c :: cs)).isNone && uuidFree cs) from rfl,
    Bool.and_eq_true] at h
  exact h.2

theorem uuidFree_head {c : Char} {cs : List Char} (h : uuidFree (c :: cs) = true) :
    matchUuid (c :: cs) = none := by
  rw [show uuidFree (c :: cs) = ((matchUuid (c :: cs)).isNone && uuidFree cs) from rfl,
    Bool.and_eq_true] at h
  exact Option.isNone_iff_eq_none.mp h.1

theorem uuidFree_dropWhile (p : Char → Bool) {l : List Char} (h : uuidFree l = true) :
    uuidFree (l.dropWhile p) = true := by
  induction l with
  | nil => exact h
  | cons c cs ih =>
    rw [List.dropWhile_cons]
    by_cases hc : p c
    · rw [if_pos hc]
      exact ih (uuidFree_tail h)
    · rwa [if_neg hc]

theorem uuidSubF_eq_self : ∀ f l, l.length ≤ f → uuidFree l = true → uuidSubF f l = l := by
  intro f
  induction f with
  | zero =>
    intro l hf _
    cases l with
    | nil => rfl
    | cons c cs => simp at hf
  | succ f ih =>
    intro l hf h
    cases l with
    | nil => rfl
    | cons c cs =>
      simp only [uuidSubF]
      rw [uuidFree_head h]
      dsimp only
      simp only [List.length_cons] at hf
      rw [ih cs (by omega) (uuidFree_tail h)]

theorem uuidFree_intSubF : ∀ f l, l.length ≤ f → uuidFree l = true →
    uuidFree (intSubF f l) = true := by
  intro f
  induction f with
  | zero =>
    intro l hf h
    cases l with
    | nil => exact h
    | cons c cs => simp at hf
  | succ f ih =>
    intro l hf h
    cases l with
    | nil => exact h
    | cons c cs =>
      simp only [intSubF]
      simp only [List.length_cons] at hf
      by_cases hc : (c = '/' && digitStart cs) = true
      · rw [if_pos hc]
        have hd := dropWhile_length_le isDigitC cs
        have htail := ih (cs.dropWhile isDigitC) (by omega)
          (uuidFree_dropWhile isDigitC (uuidFree_tail h))
        simp only [idTok, List.cons_append, List.nil_append]
        rw [show uuidFree ('/' :: '<' :: 'i' :: 'd' :: '>' :: intSubF f (cs.dropWhile isDigitC)) =
          ((matchUuid ('/' :: '<' :: 'i' :: 'd' :: '>' :: intSubF f (cs.dropWhile isDigitC))).isNone &&
            ((matchUuid ('<' :: 'i' :: 'd' :: '>' :: intSubF f (cs.dropWhile isDigitC))).isNone &&
              ((matchUuid ('i' :: 'd' :: '>' :: intSubF f (cs.dropWhile isDigitC))).isNone &&
                ((matchUuid ('d' :: '>' :: intSubF f (cs.dropWhile isDigitC))).isNone &&
                  ((matchUuid ('>' :: intSubF f (cs.dropWhile isDigitC))).isNone &&
                    uuidFree (intSubF f (cs.dropWhile isDigitC))))))) from rfl]
        rw [matchUuid_none_head _ (by decide), matchUuid_none_head _ (by decide),
          matchUuid_none_head _ (by decide), matchUuid_none_second _ _ (by decide),
          matchUuid_none_head _ (by decide), htail]
        rfl
      · rw [if_neg hc]
        have htail := ih cs (by omega) (uuidFree_tail h)
        have hnone : matchUuid (c :: intSubF f cs) = none :=
          matchUuid_none_of_take (fun hall => intSubF_take_eq f cs 35 (by omega) hall)
            (uuidFree_head h)
        rw [show uuidFree (c :: intSubF f cs) =
          ((matchUuid (c :: intSubF f cs)).isNone && uuidFree (intSubF f cs)) from rfl,
          hnone, htail]
        rfl

theorem sdFree_tail {a : Char} {l : List Char} (h : sdFree (a :: l) = true) :
    sdFree l = true := by
  cases l with
  | nil => rfl
  | cons b r =>
    rw [show sdFree (a :: b :: r) = (okPair a b && sdFree (b :: r)) from rfl,
      Bool.and_eq_true] at h
    exact h.2

theorem sdFree_cons_not_slash {a : Char} (t : List Char) (ha : a ≠ '/') :
    sdFree (a :: t) = sdFree t := by
  cases t with
  | nil => rfl
  | cons b r =>
    rw [show sdFree (a :: b :: r) = (okPair a b && sdFree (b :: r)) from rfl]
    have : okPair a b = true := by simp [okPair, ha]
    rw [this, Bool.true_and]

theorem sdFree_cons_slash_nodigit {t : List Char} (ht : digitStart t = false) :
    sdFree ('/' :: t) = sdFree t := by
  cases t with
  | nil => rfl
  | cons b r =>
    rw [show sdFree ('/' :: b :: r) = (okPair '/' b && sdFree (b :: r)) from rfl]
    simp only [digitStart] at ht
    have : okPair '/' b = true := by simp [okPair, ht]
    rw [this, Bool.true_and]

theorem digitStart_intSubF (f : Nat) {l : List Char} (h : digitStart l = false) :
    digitStart (intSubF f l) = false := by
  cases f with
  | zero => exact h
  | succ f =>
    cases l with
    | nil => rfl
    | cons c cs =>
      simp only [intSubF]
      by_cases hc : (c = '/' && digitStart cs) = true
      · rw [if_pos hc]
        rfl
      · rw [if_neg hc]
        exact h

theorem sdFree_intSubF : ∀ f l, l.length ≤ f → sdFree (intSubF f l) = true := by
  intro f
  induction f with
  | zero =>
    intro l hf
    cases l with
    | nil => rfl
    | cons c cs => simp at hf
  | succ f ih =>
    intro l hf
    cases l with
    | nil => rfl
    | cons c cs =>
      simp only [intSubF]
      simp only [List.length_cons] at hf
      by_cases hc : (c = '/' && digitStart cs) = true
      · rw [if_pos hc]
        have hd := dropWhile_length_le isDigitC cs
        have htail := ih (cs.dropWhile isDigitC) (by omega)
        simp only [idTok, List.cons_append, List.nil_append]
        rw [show sdFree ('/' :: '<' :: 'i' :: 'd' :: '>' :: intSubF f (cs.dropWhile isDigitC)) =
          (okPair '/' '<' && sdFree ('<' :: 'i' :: 'd' :: '>' :: intSubF f (cs.dropWhile isDigitC))) from rfl,
          show sdFree ('<' :: 'i' :: 'd' :: '>' :: intSubF f (cs.dropWhile isDigitC)) =
          (okPair '<' 'i' && sdFree ('i' :: 'd' :: '>' :: intSubF f (cs.dropWhile isDigitC))) from rfl,
          show sdFree ('i' :: 'd' :: '>' :: intSubF f (cs.dropWhile isDigitC)) =
          (okPair 'i' 'd' && sdFree ('d' :: '>' :: intSubF f (cs.dropWhile isDigitC))) from rfl,
          show sdFree ('d' :: '>' :: intSubF f (cs.dropWhile isDigitC)) =
          (okPair 'd' '>' && sdFree ('>' :: intSubF f (cs.dropWhile isDigitC))) from rfl]
        rw [sdFree_cons_not_slash _ (by decide), htail]
        decide
      · rw [if_neg hc]
        have htail := ih cs (by omega)
        by_cases hslash : c = '/'
        · subst hslash
          have hds : digitStart cs = false := by
            by_cases hd : digitStart cs = true
            · exact absurd (by simp [hd] : ('/' = '/' && digitStart cs) = true) hc
            · simpa using hd
          rw [sdFree_cons_slash_nodigit (digitStart_intSubF f hds)]
          exact htail
        · rw [sdFree_cons_not_slash _ hslash]
          exact htail

theorem intSubF_eq_self : ∀ f l, l.length ≤ f → sdFree l = true → intSubF f l = l := by
  intro f
  induction f with
  | zero =>
    intro l hf _
    cases l with
    | nil => rfl
    | cons c cs => simp at hf
  | succ f ih =>
    intro l hf h
    cases l with
    | nil => rfl
    | cons c cs =>
      simp only [intSubF]
      simp only [List.length_cons] at hf
      have hc : (c = '/' && digitStart cs) = false := by
        by_cases hslash : c = '/'
        · subst hslash
          cases cs with
          | nil => rfl
          | cons b r =>
            rw [show sdFree ('/' :: b :: r) = (okPair '/' b && sdFree (b :: r)) from rfl,
              Bool.and_eq_true] at h
            have := h.1
            simp only [okPair, Bool.not_eq_true', Bool.and_eq_false_iff] at this
            rcases this with h1 | h1
            · simp at h1
            · simp [digitStart, h1]
        · simp [hslash]
      rw [hc]
      simp only [Bool.false_eq_true, if_false]
      rw [ih cs (by omega) (sdFree_tail h)]

/-- `_sanitize_endpoint` output never contains `?`. -/
theorem noQ_sanitizeList (l : List Char) : noQ (sanitizeList l) = true := by
  unfold sanitizeList intSub uuidSub
  apply noQ_intSubF _ _ (le_refl _)
  apply noQ_uuidSubF _ _ (le_refl _)
  exact noQ_takeQuery l

/-- `_sanitize_endpoint` output contains no UUID match. -/
theorem uuidFree_sanitizeList (l : List Char) : uuidFree (sanitizeList l) = true := by
  unfold sanitizeList intSub uuidSub
  apply uuidFree_intSubF _ _ (le_refl _)
  exact uuidFree_uuidSubF _ _ (le_refl _)

/-- `_sanitize_endpoint` output contains no `/` followed by a digit. -/
theorem sdFree_sanitizeList (l : List Char) : sdFree (sanitizeList l) = true := by
  unfold sanitizeList intSub
  exact sdFree_intSubF _ _ (le_refl _)

/-- Idempotence of `_sanitize_endpoint` on character lists. -/
theorem sanitizeList_idem (l : List Char) : sanitizeList (sanitizeList l) = sanitizeList l := by
  have h1 : takeQuery (sanitizeList l) = sanitizeList l :=
    takeQuery_eq_self (noQ_sanitizeList l)
  have h2 : uuidSub (sanitizeList l) = sanitizeList l :=
    uuidSubF_eq_self _ _ (le_refl _) (uuidFree_sanitizeList l)
  have h3 : intSub (sanitizeList l) = sanitizeList l :=
    intSubF_eq_self _ _ (le_refl _) (sdFree_sanitizeList l)
  show intSub (uuidSub (takeQuery (sanitizeList l))) = sanitizeList l
  rw [h1, h2, h3]

/-! ### Compositionality of the substitution passes over appends

A UUID match can never cross a character that is neither a lowercase hex digit
nor a dash, and a `\/[0-9]+` match can never cross into a suffix that does not
start with a digit.  These facts let `_sanitize_endpoint` be computed piecewise
around an embedded identifier. -/

/-- The list is empty or its last character cannot occur inside a UUID match. -/
def lastOk : List Char → Bool
  | [] => true
  | [c] => !hexDash c
  | _ :: cs => lastOk cs

theorem lastOk_cons_cons (a b : Char) (cs : List Char) :
    lastOk (a :: b :: cs) = lastOk (b :: cs) := rfl

theorem lastOk_tail {c : Char} {cs : List Char} (h : lastOk (c :: cs) = true) :
    lastOk cs = true := by
  cases cs with
  | nil => rfl
  | cons b r => rwa [lastOk_cons_cons] at h

theorem lastOk_drop : ∀ (n : Nat) (p : List Char), lastOk p = true → lastOk (p.drop n) = true := by
  intro n
  induction n with
  | zero => intro p h; exact h
  | succ n ih =>
    intro p h
    cases p with
    | nil => rfl
    | cons c cs => exact ih cs (lastOk_tail h)

theorem all_hexDash_lastOk_nil : ∀ {l : List Char},
    l.all hexDash = true → lastOk l = true → l = [] := by
  intro l
  induction l with
  | nil => intro _ _; rfl
  | cons c cs ih =>
    intro hall hlast
    simp only [List.all_cons, Bool.and_eq_true] at hall
    cases cs with
    | nil =>
      exfalso
      rw [show lastOk [c] = !hexDash c from rfl, hall.1] at hlast
      simp at hlast
    | cons b r =>
      rw [lastOk_cons_cons] at hlast
      exact absurd (ih hall.2 hlast) (by simp)

theorem matchSlots_append_full : ∀ (bs : List Bool) (w t : List Char),
    matchSlots bs w = some [] → matchSlots bs (w ++ t) = some t := by
  intro bs
  induction bs with
  | nil =>
    intro w t h
    simp only [matchSlots, Option.some.injEq] at h
    subst h
    rfl
  | cons b bs ih =>
    intro w t h
    cases w with
    | nil => simp [matchSlots] at h
    | cons c cs =>
      simp only [matchSlots] at h ⊢
      by_cases hc : (if b then isHex c else c = '-') = true
      · rw [if_pos hc] at h ⊢
        exact ih cs t h
      · rw [if_neg hc] at h
        exact absurd h (by simp)

theorem matchUuid_full_length {w : List Char} (h : matchUuid w = some []) : w.length = 36 := by
  have := matchUuid_length h
  simpa using this.symm

theorem all_hexDash_of_matchUuid_full {w : List Char} (h : matchUuid w = some []) :
    w.all hexDash = true := by
  have htake := matchSlots_take_hexDash h
  rw [uuidSlots_length] at htake
  rwa [List.take_of_length_le (by rw [matchUuid_full_length h])] at htake

theorem noQ_of_all_hexDash {w : List Char} (h : w.all hexDash = true) : noQ w = true := by
  simp only [List.all_eq_true] at h
  simp only [noQ, List.all_eq_true]
  intro c hc
  have := h c hc
  by_cases hq : c = '?'
  · subst hq
    exact absurd this (by decide)
  · simpa using hq

theorem takeQuery_append {a : List Char} (t : List Char) (h : noQ a = true) :
    takeQuery (a ++ t) = a ++ takeQuery t := by
  induction a with
  | nil => rfl
  | cons c cs ih =>
    simp only [noQ, List.all_cons, Bool.and_eq_true, bne_iff_ne] at h
    unfold takeQuery at ih ⊢
    rw [List.cons_append, List.takeWhile_cons, if_pos (by simpa using h.1)]
    rw [List.cons_append]
    exact congrArg (c :: ·) (ih (by simp [noQ, h.2]))

theorem takeQuery_append_query {a : List Char} (t : List Char) (h : noQ a = true) :
    takeQuery (a ++ '?' :: t) = a := by
  rw [takeQuery_append _ h]
  unfold takeQuery
  rw [List.takeWhile_cons, if_neg (by simp)]
  simp

theorem uuidSubF_append : ∀ f (p t : List Char), p.length + t.length ≤ f → lastOk p = true →
    uuidSubF f (p ++ t) = uuidSubF f p ++ uuidSubF f t := by
  intro f
  induction f with
  | zero =>
    intro p t _ _
    rfl
  | succ f ih =>
    intro p t hf hlast
    cases p with
    | nil => rfl
    | cons c p =>
      simp only [List.length_cons] at hf
      rw [List.cons_append]
      cases hm : matchUuid (c :: (p ++ t)) with
      | some r =>
        have h36 : 36 ≤ (c :: p).length := by
          by_contra hlt
          push_neg at hlt
          have hall := matchSlots_take_hexDash hm
          rw [uuidSlots_length] at hall
          have hsplit : (c :: (p ++ t)).take 36 =
              (c :: p) ++ (t.take (36 - (c :: p).length)) := by
            rw [show c :: (p ++ t) = (c :: p) ++ t from rfl,
              List.take_append_eq_append_take,
              List.take_of_length_le (by omega)]
          rw [hsplit, List.all_append, Bool.and_eq_true] at hall
          have := all_hexDash_lastOk_nil hall.1 hlast
          simp at this
        have htake : (c :: (p ++ t)).take uuidSlots.length =
            (c :: p).take uuidSlots.length := by
          rw [uuidSlots_length,
            show c :: (p ++ t) = (c :: p) ++ t from rfl,
            List.take_append_eq_append_take,
            show (36 : Nat) - (c :: p).length = 0 by omega]
          simp
        have hsome := matchSlots_isSome_congr uuidSlots (c :: (p ++ t)) (c :: p) htake
        rw [show matchSlots uuidSlots (c :: (p ++ t)) = matchUuid (c :: (p ++ t)) from rfl,
          show matchSlots uuidSlots (c :: p) = matchUuid (c :: p) from rfl, hm] at hsome
        cases hm2 : matchUuid (c :: p) with
        | none => rw [hm2] at hsome; simp at hsome
        | some r2 =>
          have hr : r = (c :: p).drop 36 ++ t := by
            have := matchSlots_drop hm
            rw [uuidSlots_length] at this
            rw [this, show c :: (p ++ t) = (c :: p) ++ t from rfl,
              List.drop_append_eq_append_drop,
              show (36 : Nat) - (c :: p).length = 0 by omega]
            simp
          have hr2 : r2 = (c :: p).drop 36 := by
            have := matchSlots_drop hm2
            rwa [uuidSlots_length] at this
          have hlenr := matchUuid_length hm
          have hlenr2 := matchUuid_length hm2
          simp only [uuidSubF, hm, hm2]
          rw [hr, hr2]
          have hdroplen : ((c :: p).drop 36).length = (c :: p).length - 36 := by
            simp
          rw [ih ((c :: p).drop 36) t
            (by rw [hdroplen]; simp only [List.length_cons] at h36 ⊢; omega)
            (lastOk_drop 36 _ hlast)]
          rw [uuidSubF_congr f (f + 1) t (by omega) (by omega)]
          simp
      | none =>
        have hm2 : matchUuid (c :: p) = none := by
          cases hm2 : matchUuid (c :: p) with
          | none => rfl
          | some r2 =>
            exfalso
            have hlen2 := matchUuid_length hm2
            have htake : (c :: p).take uuidSlots.length =
                (c :: (p ++ t)).take uuidSlots.length := by
              rw [uuidSlots_length,
                show c :: (p ++ t) = (c :: p) ++ t from rfl,
                List.take_append_eq_append_take,
                show (36 : Nat) - (c :: p).length = 0 by omega]
              simp
            have hsome := matchSlots_isSome_congr uuidSlots (c :: p) (c :: (p ++ t)) htake
            rw [show matchSlots uuidSlots (c :: (p ++ t)) = matchUuid (c :: (p ++ t)) from rfl,
              show matchSlots uuidSlots (c :: p) = matchUuid (c :: p) from rfl,
              hm, hm2] at hsome
            simp at hsome
        simp only [uuidSubF, hm, hm2]
        rw [ih p t (by omega) (lastOk_tail hlast)]
        rw [uuidSubF_congr f (f + 1) t (by omega) (by omega)]
        simp

theorem dropWhile_digit_eq_self {b : List Char} (h : digitStart b = false) :
    b.dropWhile isDigitC = b := by
  cases b with
  | nil => rfl
  | cons x r =>
    simp only [digitStart] at h
    rw [List.dropWhile_cons, if_neg (by simp [h])]

theorem dropWhile_digit_append {a : List Char} (b : List Char) (h : digitStart b = false) :
    (a ++ b).dropWhile isDigitC = a.dropWhile isDigitC ++ b := by
  induction a with
  | nil =>
    simp only [List.nil_append, List.dropWhile_nil]
    exact dropWhile_digit_eq_self h
  | cons d r ih =>
    rw [List.cons_append, List.dropWhile_cons, List.dropWhile_cons]
    by_cases hd : isDigitC d
    · rw [if_pos (by simp [hd]), if_pos (by simp [hd])]
      exact ih
    · rw [if_neg (by simp [hd]), if_neg (by simp [hd]), List.cons_append]

theorem digitStart_append {a : List Char} (b : List Char) (h : digitStart b = false) :
    digitStart (a ++ b) = digitStart a := by
  cases a with
  | nil => simpa using h
  | cons c cs => rfl

theorem intSubF_append : ∀ f (a b : List Char), a.length + b.length ≤ f →
    digitStart b = false → intSubF f (a ++ b) = intSubF f a ++ intSubF f b := by
  intro f
  induction f with
  | zero =>
    intro a b _ _
    rfl
  | succ f ih =>
    intro a b hf hb
    cases a with
    | nil => rfl
    | cons c a =>
      simp only [List.length_cons] at hf
      rw [List.cons_append]
      simp only [intSubF]
      rw [digitStart_append b hb]
      by_cases hc : (c = '/' && digitStart a) = true
      · rw [if_pos hc, if_pos hc]
        rw [dropWhile_digit_append b hb]
        have hd := dropWhile_length_le isDigitC a
        rw [ih (a.dropWhile isDigitC) b (by omega) hb]
        rw [intSubF_congr f (f + 1) b (by omega) (by omega)]
        simp
      · rw [if_neg hc, if_neg hc]
        rw [ih a b (by omega) hb]
        rw [intSubF_congr f (f + 1) b (by omega) (by omega)]
        simp

/-- `_sanitize_endpoint` computed around an embedded lowercase canonical UUID:
when the characters before the identifier end in something that cannot occur
inside a UUID match (for example `/`) and contain no `?`, the identifier is
replaced by the literal `<id>` and the rest of the URL is sanitized around it. -/
theorem sanitizeList_around_uuid (p w s : List Char) (hw : matchUuid w = some [])
    (hp : noQ p = true) (hlast : lastOk p = true) :
    sanitizeList (p ++ w ++ s) = intSub (uuidSub p) ++ idTok ++ sanitizeList s := by
  have hwall := all_hexDash_of_matchUuid_full hw
  have hwq : noQ w = true := noQ_of_all_hexDash hwall
  have htq : takeQuery (p ++ w ++ s) = p ++ (w ++ takeQuery s) := by
    rw [List.append_assoc, takeQuery_append _ hp, takeQuery_append _ hwq]
  have hu1 : uuidSub (p ++ (w ++ takeQuery s)) =
      uuidSub p ++ uuidSub (w ++ takeQuery s) := by
    unfold uuidSub
    rw [uuidSubF_append _ p (w ++ takeQuery s) (by simp) hlast]
    rw [uuidSubF_congr (p ++ (w ++ takeQuery s)).length p.length p (by simp) (le_refl _)]
    rw [uuidSubF_congr (p ++ (w ++ takeQuery s)).length (w ++ takeQuery s).length
      (w ++ takeQuery s) (by simp) (le_refl _)]
  have hu2 : uuidSub (w ++ takeQuery s) = idTok ++ uuidSub (takeQuery s) := by
    cases w with
    | nil => exact absurd (matchUuid_full_length hw) (by simp)
    | cons c w =>
      rw [List.cons_append, uuidSub_cons]
      rw [show matchUuid (c :: (w ++ takeQuery s)) = some (takeQuery s) from
        matchSlots_append_full uuidSlots (c :: w) (takeQuery s) hw]
  have hi1 : intSub (uuidSub p ++ (idTok ++ uuidSub (takeQuery s))) =
      intSub (uuidSub p) ++ intSub (idTok ++ uuidSub (takeQuery s)) := by
    unfold intSub
    rw [intSubF_append _ (uuidSub p) (idTok ++ uuidSub (takeQuery s)) (by simp) (by rfl)]
    rw [intSubF_congr (uuidSub p ++ (idTok ++ uuidSub (takeQuery s))).length
      (uuidSub p).length (uuidSub p) (by simp) (le_refl _)]
    rw [intSubF_congr (uuidSub p ++ (idTok ++ uuidSub (takeQuery s))).length
      (idTok ++ uuidSub (takeQuery s)).length (idTok ++ uuidSub (takeQuery s))
      (by simp) (le_refl _)]
  have hi2 : intSub (idTok ++ uuidSub (takeQuery s)) =
      idTok ++ intSub (uuidSub (takeQuery s)) := by
    show intSub ('<' :: 'i' :: 'd' :: '>' :: uuidSub (takeQuery s)) = _
    rw [intSub_cons, if_neg (by simp), intSub_cons, if_neg (by simp),
      intSub_cons, if_neg (by simp), intSub_cons]
    rw [if_neg (by simp [digitStart])]
    rfl
  show intSub (uuidSub (takeQuery (p ++ w ++ s))) = _
  rw [htq, hu1, hu2, hi1, hi2, ← List.append_assoc]
  rfl

/-! ## Transport outcomes and error classification (`rpc.py`, `requests==2.31.0`)

`requests.Response.__bool__` is `self.ok`, i.e. `status_code < 400`; this is
what the expression `if e.response` in `_extract_status_code` evaluates.
`Response.raise_for_status` raises `requests.exceptions.HTTPError` — a
`RequestException` subclass — carrying the response itself, for
`400 <= status_code < 600`. -/

/-- A `requests.Response` as far as the dispatcher inspects it. -/
structure PyResponse where
  status : Nat

/-- `Response.ok` (also the truth value of the response object). -/
def responseOk (r : PyResponse) : Bool := r.status < 400

/-- The exceptions caught by `request`: `requests.RequestException` (with the
optional `.response` attribute) and `urllib3.exceptions.HTTPError`.  A timeout
or connection error is a `RequestException` with no attached response. -/
inductive TransportExc where
  | requestException (response : Option PyResponse)
  | urllibHTTPError

/-- `_extract_status_code`.  For a `RequestException` the code evaluates
`e.response.status_code if e.response else default_code`; `if e.response`
tests the *truthiness* of the response (`Response.ok`), not its presence. -/
def extract_status_code (e : TransportExc) : Nat :=
  match e with
  | .requestException (some r) => if responseOk r then r.status else 502
  | .requestException none => 502
  | .urllibHTTPError => 502

/-- `Response.raise_for_status`: an `HTTPError` carrying the response for
`400 <= status < 600`, nothing otherwise. -/
def raise_for_status (r : PyResponse) : Option TransportExc :=
  if 400 ≤ r.status ∧ r.status < 600 then some (.requestException (some r)) else none

/-- What the transport call itself produces: a response, or a raised
`RequestException`/`HTTPError`. -/
inductive Transport where
  | ok (r : PyResponse)
  | exn (e : TransportExc)

/-- One recorded metric sample: `RPCS_TOTAL.labels(method, endpoint, status).inc()`
paired with `RPC_LATENCY.labels(method, endpoint, status).observe(latency)`,
which `_record_rpc` always performs together with the same labels. -/
structure MetricSample where
  method : String
  endpoint : String
  status : Nat

/-- The typed error raised by the dispatcher (`RPCError{url, message, status}`;
the diagnostic message text is not modelled). -/
structure RPCErr where
  url : String
  status : Nat

/-- Everything observable about one `request(...)` dispatch: the request id
used in the initiation log line, the headers handed to the transport, the
payload handed to the transport, the metric samples recorded, the request id
in the completion log line, and the outcome. -/
structure Trace where
  startLogRequestId : String
  sentHeaders : List (String × String)
  payload : Option String
  metrics : List MetricSample
  doneLogRequestId : Option String
  result : Except RPCErr Nat

/-- `request(method, url, user_id, role, headers, timeout, body)` as a function
of the correlation context (`ctx` models `flask.request.id` when an inbound
context exists), the id freshly generated by `new_id()` (passed as the default
to `get_request_id`), and the transport outcome. -/
def requestM (method url : String) (ctx : Option String) (freshId : String)
    (user_id : Option String) (role : String) (headers0 : Option (List (String × String)))
    (body : Option JsonValue) (transport : Transport) : Trace :=
  let request_id := match ctx with | some i => i | none => freshId
  let headers := match headers0 with | some hs => hs | none => []
  let request_headers := create_headers user_id role body headers request_id
  let payload := sentPayload method body
  let failWith : TransportExc → Trace := fun e =>
    let code := extract_status_code e
    { startLogRequestId := request_id
      sentHeaders := request_headers
      payload := payload
      metrics := [⟨method, sanitize url, code⟩]
      doneLogRequestId := some request_id
      result := .error ⟨url, code⟩ }
  match transport with
  | .exn e => failWith e
  | .ok res =>
    match raise_for_status res with
    | some e => failWith e
    | none =>
      { startLogRequestId := request_id
        sentHeaders := request_headers
        payload := payload
        metrics := [⟨method, sanitize url, res.status⟩]
        doneLogRequestId := some request_id
        result := .ok res.status }

/-! ## Token codec (`crazerace/jwt/__init__.py`, `PyJWT==1.7.1`)

`jwt.encode(payload, secret, algorithm="HS256")` is modelled abstractly as the
pair of the payload and the signing secret: a signature check succeeds exactly
when the verifying secret equals the signing secret.  `jwt.decode` with
PyJWT 1.7.1 verifies the signature, then validates `exp` (fails when
`exp < now`) and `nbf` (fails when `nbf > now`); `iat` is not compared against
the current time in that release.  All of these failures are `PyJWTError`s. -/

/-- The claims dict carried by a token; `sub`/`role` may be absent in a foreign
token, which is what makes the `KeyError` branch of `decode` reachable. -/
structure Payload where
  sub : Option String
  role : Option String
  iat : Int
  nbf : Int
  exp : Int

/-- An encoded token: payload plus the secret it was signed with. -/
structure Token where
  payload : Payload
  signedWith : String

/-- The `TokenBody` dataclass. -/
structure TokenBody where
  subject : String
  role : String
deriving DecidableEq

/-- `create_token(sub, role, secret, expiry, ...)` at current time `now`
(integer Unix seconds): `iat = now`, `nbf = now - 60`, `exp = now + expiry`. -/
def create_token (sub role secret : String) (expiry : Int) (now : Int) : Token :=
  { payload := { sub := some sub, role := some role, iat := now, nbf := now - 60, exp := now + expiry }
    signedWith := secret }

/-- `DEFAULT_EXPIRY = 24 * 3600`. -/
def DEFAULT_EXPIRY : Int := 24 * 3600

/-- `jwt.decode(token, secret, algorithms=[...])` (PyJWT 1.7.1): the payload
dict when the signature verifies and `now` is within the validity window,
otherwise a `PyJWTError`. -/
def pyjwt_decode (t : Token) (secret : String) (now : Int) : Option Payload :=
  if t.signedWith = secret ∧ t.payload.nbf ≤ now ∧ now ≤ t.payload.exp then some t.payload
  else none

/-- The outcome of `crazerace.jwt.decode`: a `TokenBody`, or one of the two
error types it raises. -/
inductive DecodeResult where
  | ok (body : TokenBody)
  | badRequest
  | unauthorized
deriving DecidableEq

/-- The HTTP status semantics of the two error types (`error.py`):
`BadRequestError.status() = 400`, `UnauthorizedError.status() = 401`. -/
def DecodeResult.errStatus : DecodeResult → Option Nat
  | .ok _ => none
  | .badRequest => some 400
  | .unauthorized => some 401

/-- `decode(token, secret)`: `PyJWTError` becomes `UnauthorizedError`; a
successful library decode followed by a missing `sub`/`role` key (`KeyError`)
becomes `BadRequestError`. -/
def decodeM (t : Token) (secret : String) (now : Int) : DecodeResult :=
  match pyjwt_decode t secret now with
  | none => .unauthorized
  | some p =>
    match p.sub, p.role with
    | some s, some r => .ok ⟨s, r⟩
    | _, _ => .badRequest

/-! ## Header construction lemmas -/

theorem mem_setH_of_ne {p : String × String} {hs : List (String × String)} {k v : String}
    (hmem : p ∈ hs) (hne : p.1 ≠ k) : p ∈ setH k v hs := by
  unfold setH
  by_cases h : hs.any (fun q => q.1 = k)
  · rw [if_pos h]
    have : p = (fun q => if q.1 = k then (k, v) else q) p := by
      show p = if p.1 = k then (k, v) else p
      rw [if_neg hne]
    rw [this]
    exact List.mem_map_of_mem _ hmem
  · rw [if_neg h]
    exact List.mem_append_left _ hmem

theorem setH_keys {P : String → Prop} {hs : List (String × String)} {k v : String}
    (hall : ∀ p ∈ hs, P p.1) (hk : P k) : ∀ p ∈ setH k v hs, P p.1 := by
  intro p hp
  unfold setH at hp
  by_cases h : hs.any (fun q => q.1 = k)
  · rw [if_pos h] at hp
    obtain ⟨q, hq, hqe⟩ := List.mem_map.mp hp
    by_cases hqk : q.1 = k
    · rw [if_pos hqk] at hqe
      rw [← hqe]
      exact hk
    · rw [if_neg hqk] at hqe
      rw [← hqe]
      exact hall q hq
  · rw [if_neg h] at hp
    rcases List.mem_append.mp hp with hp | hp
    · exact hall p hp
    · rw [List.mem_singleton.mp hp]
      exact hk

/-- The headers `_create_headers` builds before the content-type step. -/
def headers_before_ct (user_id : Option String) (role : String)
    (headers : List (String × String)) (request_id : String) : List (String × String) :=
  let h1 := setH "X-Request-ID" request_id headers
  match user_id with
  | some uid => if uid ≠ "" then setH "Authorization" (auth_header_value uid role) h1 else h1
  | none => h1

theorem headers_before_ct_none (role : String) (hs : List (String × String)) (rid : String) :
    headers_before_ct none role hs rid = setH "X-Request-ID" rid hs := rfl

theorem headers_before_ct_some (uid role : String) (hs : List (String × String)) (rid : String) :
    headers_before_ct (some uid) role hs rid =
      if uid ≠ "" then
        setH "Authorization" (auth_header_value uid role) (setH "X-Request-ID" rid hs)
      else setH "X-Request-ID" rid hs := rfl

theorem create_headers_eq (user_id : Option String) (role : String) (body : Option JsonValue)
    (headers : List (String × String)) (request_id : String) :
    create_headers user_id role body headers request_id =
      (if should_add_content_type (headers_before_ct user_id role headers request_id) body then
        setH "Content-Type" (create_content_type body)
          (headers_before_ct user_id role headers request_id)
      else headers_before_ct user_id role headers request_id) := rfl

theorem headers_before_ct_keys {user_id : Option String} {role : String}
    {hs : List (String × String)} {request_id : String} {P : String → Prop}
    (hall : ∀ p ∈ hs, P p.1) (hx : P "X-Request-ID") (ha : P "Authorization") :
    ∀ p ∈ headers_before_ct user_id role hs request_id, P p.1 := by
  cases user_id with
  | none =>
    rw [headers_before_ct_none]
    exact setH_keys hall hx
  | some uid =>
    rw [headers_before_ct_some]
    by_cases hu : uid ≠ ""
    · rw [if_pos hu]
      exact setH_keys (setH_keys hall hx) ha
    · rw [if_neg hu]
      exact setH_keys hall hx

theorem getH_headers_before_ct_ne {k : String} (user_id : Option String) (role : String)
    (hs : List (String × String)) (request_id : String)
    (hx : k ≠ "X-Request-ID") (ha : k ≠ "Authorization") :
    getH k (headers_before_ct user_id role hs request_id) = getH k hs := by
  cases user_id with
  | none =>
    rw [headers_before_ct_none]
    exact getH_setH_ne k _ _ hs hx
  | some uid =>
    rw [headers_before_ct_some]
    by_cases hu : uid ≠ ""
    · rw [if_pos hu, getH_setH_ne k _ _ _ ha, getH_setH_ne k _ _ hs hx]
    · rw [if_neg hu]
      exact getH_setH_ne k _ _ hs hx

theorem getH_xrid_headers_before_ct (user_id : Option String) (role : String)
    (hs : List (String × String)) (request_id : String) :
    getH "X-Request-ID" (headers_before_ct user_id role hs request_id) =
      some request_id := by
  cases user_id with
  | none =>
    rw [headers_before_ct_none]
    exact getH_setH_self _ _ hs
  | some uid =>
    rw [headers_before_ct_some]
    by_cases hu : uid ≠ ""
    · rw [if_pos hu, getH_setH_ne _ _ _ _ (by decide)]
      exact getH_setH_self _ _ hs
    · rw [if_neg hu]
      exact getH_setH_self _ _ hs

/-- When no caller header is named `content-type` (case-insensitively) and the
body is present, `_create_headers` adds the inferred `Content-Type`. -/
theorem getH_ct_create_headers (user_id : Option String) (role : String) (v : JsonValue)
    (hs : List (String × String)) (request_id : String)
    (hno : ∀ p ∈ hs, lowerStr p.1 ≠ "content-type") :
    getH "Content-Type" (create_headers user_id role (some v) hs request_id) =
      some (create_content_type (some v)) := by
  rw [create_headers_eq]
  have hkeys : ∀ p ∈ headers_before_ct user_id role hs request_id,
      lowerStr p.1 ≠ "content-type" :=
    headers_before_ct_keys (P := fun s => lowerStr s ≠ "content-type") hno
      (by decide) (by decide)
  have hadd : should_add_content_type (headers_before_ct user_id role hs request_id)
      (some v) = true := by
    unfold should_add_content_type
    rw [Bool.and_eq_true]
    refine ⟨?_, rfl⟩
    rw [Bool.not_eq_true', List.any_eq_false]
    intro p hp
    simpa using hkeys p hp
  rw [if_pos hadd]
  exact getH_setH_self _ _ _

/-- `X-Request-ID` in the final built headers is always the dispatch's request
id (the content-type step cannot overwrite it). -/
theorem getH_xrid_create_headers (user_id : Option String) (role : String)
    (body : Option JsonValue) (hs : List (String × String)) (request_id : String) :
    getH "X-Request-ID" (create_headers user_id role body hs request_id) =
      some request_id := by
  rw [create_headers_eq]
  by_cases hadd : should_add_content_type (headers_before_ct user_id role hs request_id) body = true
  · rw [if_pos hadd, getH_setH_ne _ _ _ _ (by decide)]
    exact getH_xrid_headers_before_ct user_id role hs request_id
  · rw [if_neg hadd]
    exact getH_xrid_headers_before_ct user_id role hs request_id

/-! ## Claims -/

/-- C2: for every pair of strings `(subject, role)` and a fixed secret,
decoding a freshly minted token (same secret, same current time) succeeds and
returns the subject and role unchanged. -/
theorem C2_token_roundtrip (sub role secret : String) (now : Int) :
    decodeM (create_token sub role secret DEFAULT_EXPIRY now) secret now =
      .ok ⟨sub, role⟩ := by
  have hp : pyjwt_decode (create_token sub role secret DEFAULT_EXPIRY now) secret now =
      some (create_token sub role secret DEFAULT_EXPIRY now).payload := by
    unfold pyjwt_decode
    rw [if_pos]
    unfold create_token DEFAULT_EXPIRY
    refine ⟨rfl, ?_, ?_⟩ <;> simp
  unfold decodeM
  rw [hp]
  rfl

/-- C3 counterexample: a token whose `sub` claim is absent *and* whose
signature does not verify fails with `UnauthorizedError`, not with
`BadRequestError` — so "fails with the MalformedClaims kind exactly when a
required claim is absent" is false as stated: the signature/window check runs
first and wins on the overlap. -/
theorem C3_counterexample :
    decodeM ⟨⟨none, some "USER", 0, 0, 100⟩, "other-secret"⟩ "secret" 50 = .unauthorized ∧
      (⟨none, some "USER", 0, 0, 100⟩ : Payload).sub = none ∧
      decodeM ⟨⟨none, some "USER", 0, 0, 100⟩, "other-secret"⟩ "secret" 50 ≠ .badRequest := by
  refine ⟨by decide, rfl, by decide⟩

/-- C3 (amended): verification fails with `BadRequestError` (400,
`MalformedClaims`) exactly when the signature verifies, the current time lies
inside `[nbf, exp]`, and a required claim (`sub` or `role`) is absent; it
fails with `UnauthorizedError` (401, `InvalidSignatureOrExpired`) exactly when
the signature check fails or the current time falls outside `[nbf, exp]`; the
two failure kinds are distinct error types with distinct statuses. -/
theorem C3_error_classification (t : Token) (secret : String) (now : Int) :
    (decodeM t secret now = .badRequest ↔
      ((t.signedWith = secret ∧ t.payload.nbf ≤ now ∧ now ≤ t.payload.exp) ∧
        (t.payload.sub = none ∨ t.payload.role = none))) ∧
    (decodeM t secret now = .unauthorized ↔
      ¬(t.signedWith = secret ∧ t.payload.nbf ≤ now ∧ now ≤ t.payload.exp)) ∧
    DecodeResult.badRequest ≠ DecodeResult.unauthorized ∧
    DecodeResult.errStatus .badRequest = some 400 ∧
    DecodeResult.errStatus .unauthorized = some 401 := by
  refine ⟨?_, ?_, by decide, rfl, rfl⟩ <;>
  · by_cases hcond : t.signedWith = secret ∧ t.payload.nbf ≤ now ∧ now ≤ t.payload.exp
    · have hp : pyjwt_decode t secret now = some t.payload := by
        unfold pyjwt_decode
        rw [if_pos hcond]
      have hd : decodeM t secret now =
          (match t.payload.sub, t.payload.role with
            | some s, some r => .ok ⟨s, r⟩
            | _, _ => .badRequest) := by
        unfold decodeM
        rw [hp]
      rcases hsub : t.payload.sub with _ | s <;> rcases hrole : t.payload.role with _ | r <;>
        rw [hsub, hrole] at hd <;> simp [hd, hcond, hsub, hrole]
    · have hp : pyjwt_decode t secret now = none := by
        unfold pyjwt_decode
        rw [if_neg hcond]
      have hd : decodeM t secret now = .unauthorized := by
        unfold decodeM
        rw [hp]
      simp [hd, hcond]

/-- C5 counterexample: a `post` with the string body `"hi"` hands the
transport the JSON serialization `"hi"` with quotes — two characters longer —
not the string itself, so a string body is *not* transmitted unmodified. -/
theorem C5_counterexample :
    sentPayload "post" (some (.str "hi")) = some "\x22hi\x22" ∧
      sentPayload "post" (some (.str "hi")) ≠ some "hi" := by
  refine ⟨by decide, by decide⟩

/-- C5 (amended): `get`/`delete` calls never pass a body to the transport; for
the other methods a present *truthy* body is passed JSON-serialized — strings
included, so a string body is serialized as a JSON string rather than
transmitted verbatim — and a present falsy body is not passed at all. -/
theorem C5_body_transmission :
    (∀ (method : String) (body : Option JsonValue),
      lowerStr method = "get" ∨ lowerStr method = "delete" →
      sentPayload method body = none) ∧
    (∀ (method : String) (body : Option JsonValue),
      pyTruthy body = false → sentPayload method body = none) ∧
    (∀ (method : String) (v : JsonValue),
      ¬lowerStr method = "get" → ¬lowerStr method = "delete" → v.isTruthy = true →
      sentPayload method (some v) = some (dumps v)) := by
  refine ⟨?_, ?_, ?_⟩
  · intro method body h
    rcases h with h | h <;> simp [sentPayload, h]
  · intro method body h
    simp [sentPayload, h]
  · intro method v h1 h2 h3
    simp [sentPayload, h1, h2, pyTruthy, h3]

/-- C5 witness: the amended statement at concrete inputs. -/
theorem C5_body_transmission_witness :
    sentPayload "get" (some (.str "hi")) = none ∧
      sentPayload "put" (some (.str "")) = none ∧
      sentPayload "post" (some (.obj [("a", .num 1)])) =
        some (dumps (.obj [("a", .num 1)])) :=
  ⟨C5_body_transmission.1 "get" _ (Or.inl (by decide)),
   C5_body_transmission.2.1 "put" _ (by decide),
   C5_body_transmission.2.2 "post" _ (by decide) (by decide) (by decide)⟩

/-- C6: the endpoint sanitizer is idempotent:
`sanitize (sanitize u) = sanitize u` for every string `u`. -/
theorem C6_sanitize_idempotent (u : String) : sanitize (sanitize u) = sanitize u :=
  congrArg String.mk (sanitizeList_idem u.data)

/-- C7 counterexample: a URL containing an *uppercase* canonical UUID
substring is not collapsed to `<id>`: the UUID regex is lowercase-only (no
`re.IGNORECASE`), so only the leading digit run `3` falls to the numeric rule
and the rest of the identifier survives into the metric label. -/
theorem C7_counterexample :
    sanitize "/a/3FA85F64-5717-4562-B3FC-2C963F66AFA6" =
      "/a/<id>FA85F64-5717-4562-B3FC-2C963F66AFA6" ∧
      sanitize "/a/3FA85F64-5717-4562-B3FC-2C963F66AFA6" ≠ "/a/<id>" :=
  ⟨by decide, by decide⟩

/-- C7 (amended): only *lowercase* canonical-format UUID substrings
(8-4-4-4-12 lowercase hex groups, `matchUuid w = some []`) are replaced with
the literal token `<id>`; this holds whenever the characters before the
identifier contain no `?` and end in a character that cannot occur inside a
UUID match (such as `/`).  Uppercase or mixed-case identifiers are not
matched by the UUID rule. -/
theorem C7_lowercase_uuid_replaced (p w s : List Char)
    (hw : matchUuid w = some []) (hp : noQ p = true) (hlast : lastOk p = true) :
    sanitizeList (p ++ w ++ s) = intSub (uuidSub p) ++ idTok ++ sanitizeList s :=
  sanitizeList_around_uuid p w s hw hp hlast

/-- C7 witness: the amended statement at a concrete URL prefix and UUID. -/
theorem C7_lowercase_uuid_replaced_witness :
    matchUuid "3fa85f64-5717-4562-b3fc-2c963f66afa6".data = some [] ∧
      sanitizeList ("https://svc/items/".data ++
          "3fa85f64-5717-4562-b3fc-2c963f66afa6".data ++ []) =
        intSub (uuidSub "https://svc/items/".data) ++ idTok ++ sanitizeList [] :=
  ⟨by decide,
   C7_lowercase_uuid_replaced "https://svc/items/".data
     "3fa85f64-5717-4562-b3fc-2c963f66afa6".data [] (by decide) (by decide) (by decide)⟩

/-- C8: the sanitizer is deterministic (it is a function of the URL alone),
strips the query string — `sanitize (u ++ "?" ++ q) = sanitize u` whenever `u`
contains no `?` — and collapses a canonical-identifier path segment and a
purely numeric path segment to the same label, both ending in `/<id>`. -/
theorem C8_sanitize_stable :
    (∀ u q : String, noQ u.data = true → sanitize (u ++ "?" ++ q) = sanitize u) ∧
      sanitize "https://svc/items/3fa85f64-5717-4562-b3fc-2c963f66afa6" =
        "https://svc/items/<id>" ∧
      sanitize "https://svc/items/123" = "https://svc/items/<id>" := by
  refine ⟨?_, by decide, by decide⟩
  intro u q h
  apply congrArg String.mk
  have hdata : (u ++ "?" ++ q).data = u.data ++ '?' :: q.data := by
    simp [String.data_append]
  rw [show sanitizeList (u ++ "?" ++ q).data =
    intSub (uuidSub (takeQuery (u ++ "?" ++ q).data)) from rfl, hdata,
    takeQuery_append_query _ h]
  rw [show sanitizeList u.data = intSub (uuidSub (takeQuery u.data)) from rfl,
    takeQuery_eq_self h]

/-- C8 witness: query stripping at a concrete URL and query string. -/
theorem C8_sanitize_stable_witness :
    sanitize ("https://svc/items" ++ "?" ++ "x=1") = sanitize "https://svc/items" :=
  C8_sanitize_stable.1 "https://svc/items" "x=1" (by decide)

/-- C4: for every dispatched call, when a non-`None` body is supplied and no
caller header is named `content-type` (case-insensitively), the built headers
carry `Content-Type: text/plain; charset=utf-8` for string bodies and
`application/json; charset=utf-8` otherwise; a `None` body adds no default
`Content-Type`; and a caller-supplied content-type header is never
overwritten. -/
theorem C4_content_type_defaults :
    (∀ (uid : Option String) (role s : String) (hs : List (String × String)) (rid : String),
      (∀ p ∈ hs, lowerStr p.1 ≠ "content-type") →
      getH "Content-Type" (create_headers uid role (some (.str s)) hs rid) =
        some "text/plain; charset=utf-8") ∧
    (∀ (uid : Option String) (role : String) (v : JsonValue)
        (hs : List (String × String)) (rid : String),
      v.isStr = false → (∀ p ∈ hs, lowerStr p.1 ≠ "content-type") →
      getH "Content-Type" (create_headers uid role (some v) hs rid) =
        some "application/json; charset=utf-8") ∧
    (∀ (uid : Option String) (role : String) (hs : List (String × String)) (rid : String),
      getH "Content-Type" (create_headers uid role none hs rid) =
        getH "Content-Type" hs) ∧
    (∀ (uid : Option String) (role : String) (body : Option JsonValue)
        (hs : List (String × String)) (k v rid : String),
      lowerStr k = "content-type" → getH k hs = some v →
      getH k (create_headers uid role body hs rid) = some v) := by
  refine ⟨?_, ?_, ?_, ?_⟩
  · intro uid role s hs rid hno
    exact (getH_ct_create_headers uid role _ hs rid hno).trans rfl
  · intro uid role v hs rid hv hno
    refine (getH_ct_create_headers uid role v hs rid hno).trans ?_
    simp [create_content_type, hv]
  · intro uid role hs rid
    rw [create_headers_eq]
    have hadd : should_add_content_type (headers_before_ct uid role hs rid) none = false := by
      simp [should_add_content_type]
    rw [if_neg (by simp [hadd])]
    exact getH_headers_before_ct_ne uid role hs rid (by decide) (by decide)
  · intro uid role body hs k v rid hk hv
    have hkx : k ≠ "X-Request-ID" := by
      intro h
      rw [h] at hk
      exact absurd hk (by decide)
    have hka : k ≠ "Authorization" := by
      intro h
      rw [h] at hk
      exact absurd hk (by decide)
    obtain ⟨p0, hfind⟩ : ∃ p0, hs.find? (fun p => p.1 = k) = some p0 := by
      unfold getH at hv
      cases hf : hs.find? (fun p => p.1 = k) with
      | none => rw [hf] at hv; simp at hv
      | some p0 => exact ⟨p0, rfl⟩
    have hp0mem := List.mem_of_find?_eq_some hfind
    have hp0k : p0.1 = k := by
      have := List.find?_some hfind
      simpa using this
    have hmem2 : p0 ∈ headers_before_ct uid role hs rid := by
      cases uid with
      | none =>
        rw [headers_before_ct_none]
        exact mem_setH_of_ne hp0mem (by rw [hp0k]; exact hkx)
      | some u =>
        rw [headers_before_ct_some]
        by_cases hu : u ≠ ""
        · rw [if_pos hu]
          exact mem_setH_of_ne (mem_setH_of_ne hp0mem (by rw [hp0k]; exact hkx))
            (by rw [hp0k]; exact hka)
        · rw [if_neg hu]
          exact mem_setH_of_ne hp0mem (by rw [hp0k]; exact hkx)
    have hany : ((headers_before_ct uid role hs rid).any
        (fun p => lowerStr p.1 = "content-type")) = true := by
      rw [List.any_eq_true]
      exact ⟨p0, hmem2, by simp [hp0k, hk]⟩
    have hadd : should_add_content_type (headers_before_ct uid role hs rid) body = false := by
      simp [should_add_content_type, hany]
    rw [create_headers_eq, if_neg (by simp [hadd])]
    rw [getH_headers_before_ct_ne uid role hs rid hkx hka]
    exact hv

/-- C4 witness: the four parts of the content-type policy at concrete
headers and bodies. -/
theorem C4_content_type_defaults_witness :
    getH "Content-Type"
        (create_headers (some "u1") "SYSTEM" (some (.str "b")) [("Accept", "x")] "rid") =
      some "text/plain; charset=utf-8" ∧
    getH "Content-Type" (create_headers none "SYSTEM" (some (.obj [])) [] "rid") =
      some "application/json; charset=utf-8" ∧
    getH "Content-Type" (create_headers none "SYSTEM" none [("Content-Type", "mine")] "rid") =
      getH "Content-Type" [("Content-Type", "mine")] ∧
    getH "content-TYPE"
        (create_headers none "SYSTEM" (some (.str "b")) [("content-TYPE", "mine")] "rid") =
      some "mine" :=
  ⟨C4_content_type_defaults.1 (some "u1") "SYSTEM" "b" [("Accept", "x")] "rid" (by decide),
   C4_content_type_defaults.2.1 none "SYSTEM" (.obj []) [] "rid" (by decide) (by decide),
   C4_content_type_defaults.2.2.1 none "SYSTEM" [("Content-Type", "mine")] "rid",
   C4_content_type_defaults.2.2.2 none "SYSTEM" (some (.str "b")) [("content-TYPE", "mine")]
     "content-TYPE" "mine" "rid" (by decide) (by decide)⟩

/-- C10: a `put`/`post`/`patch` call with a present but falsy body (empty
string, empty dict, `0`, `False`) gets a default `Content-Type` header
(because the body is not `None`) while no body at all is handed to the
transport (because the body is falsy). -/
theorem C10_falsy_body_header_no_payload (method : String) (v : JsonValue)
    (uid : Option String) (role : String) (hs : List (String × String)) (rid : String)
    (hm : method = "put" ∨ method = "post" ∨ method = "patch")
    (hfalsy : v.isTruthy = false)
    (hno : ∀ p ∈ hs, lowerStr p.1 ≠ "content-type") :
    getH "Content-Type" (create_headers uid role (some v) hs rid) =
      some (create_content_type (some v)) ∧
    sentPayload method (some v) = none :=
  ⟨getH_ct_create_headers uid role v hs rid hno,
   by simp [sentPayload, pyTruthy, hfalsy]⟩

/-- C10 witness: a `post` with empty-string body gets
`Content-Type: text/plain; charset=utf-8` and transmits nothing. -/
theorem C10_falsy_body_header_no_payload_witness :
    getH "Content-Type" (create_headers none "SYSTEM" (some (.str "")) [] "rid") =
      some (create_content_type (some (.str ""))) ∧
    sentPayload "post" (some (.str "")) = none :=
  C10_falsy_body_header_no_payload "post" (.str "") none "SYSTEM" [] "rid"
    (Or.inr (Or.inl rfl)) (by decide) (by decide)

/-- C9: a dispatched call with no established correlation context does not
fail: the freshly generated id is the request id of the initiation log line,
the value of the `X-Request-ID` header handed to the transport, and the
request id of the completion log line — for every transport outcome. -/
theorem C9_missing_context_uses_fresh_id (method url freshId role : String)
    (user_id : Option String) (headers0 : Option (List (String × String)))
    (body : Option JsonValue) (transport : Transport) :
    (requestM method url none freshId user_id role headers0 body transport).startLogRequestId =
      freshId ∧
    getH "X-Request-ID"
        (requestM method url none freshId user_id role headers0 body transport).sentHeaders =
      some freshId ∧
    (requestM method url none freshId user_id role headers0 body transport).doneLogRequestId =
      some freshId := by
  have hfields : ∀ tr : Transport,
      (requestM method url none freshId user_id role headers0 body tr).startLogRequestId =
        freshId ∧
      (requestM method url none freshId user_id role headers0 body tr).sentHeaders =
        create_headers user_id role body
          (match headers0 with | some hs => hs | none => []) freshId ∧
      (requestM method url none freshId user_id role headers0 body tr).doneLogRequestId =
        some freshId := by
    intro tr
    cases tr with
    | exn e => exact ⟨rfl, rfl, rfl⟩
    | ok res =>
      cases hr : raise_for_status res with
      | some e =>
        simp only [requestM]
        rw [hr]
        exact ⟨rfl, rfl, rfl⟩
      | none =>
        simp only [requestM]
        rw [hr]
        exact ⟨rfl, rfl, rfl⟩
  obtain ⟨h1, h2, h3⟩ := hfields transport
  refine ⟨h1, ?_, h3⟩
  rw [h2]
  exact getH_xrid_create_headers user_id role body _ freshId

/-- C1 (code bug): a dispatched call whose transport returns an HTTP 404
response is classified `502`, not `404`: `raise_for_status` raises an
`HTTPError` carrying the 404 response, but `_extract_status_code` evaluates
`e.response.status_code if e.response else default_code`, and `if e.response`
tests the response's *truthiness* (`Response.ok`, false for every status
>= 400), not its presence — so the carried status is never used on this path.
The dispatcher still records exactly one metric sample and raises `RPCError`
with the same (mis)classified status, but the classification contradicts the
claim's "status carried by the transport error's response if one is
present". -/
theorem C1_present_response_status_ignored :
    (requestM "get" "http://svc/items" none "rid-1" none "SYSTEM" none none
        (.ok ⟨404⟩)).result = .error ⟨"http://svc/items", 502⟩ ∧
    (requestM "get" "http://svc/items" none "rid-1" none "SYSTEM" none none
        (.ok ⟨404⟩)).metrics = [⟨"get", "http://svc/items", 502⟩] ∧
    extract_status_code (.requestException (some ⟨404⟩)) = 502 ∧
    extract_status_code (.requestException none) = 502 ∧
    (502 : Nat) ≠ 404 :=
  ⟨rfl, rfl, rfl, rfl, by decide⟩

end Crazerace
